import Mathlib

/-!
Verification of the webid operator's core reconciliation logic.

This development shallowly embeds the two reconcilers of the repository:
the Page reconciler (finalizer protocol, aggregate rebuild, shared cache,
digest) and the WebServer reconciler (five ensure-steps, status
conditions, deployment diffing).  Go maps `map[string][]byte` are
embedded as association lists with pairwise-distinct keys; a `nil` map is
distinguished from an empty one with `Option`.  External calls made by a
reconcile invocation (client gets, lists, updates) are supplied by an
environment record, and each embedded reconcile function returns the
observable outcome of one invocation: its result, the cache it leaves
behind, and which side effects it issued.
-/

namespace Webid

/-- A byte sequence (`[]byte` in Go); each entry is a byte value. -/
abbrev Bytes := List Nat

/-- Embedding of Go's `map[string][]byte` as an association list.
The intended invariant (true of every map the code builds) is
`KeysNodup`: keys are pairwise distinct. -/
abbrev GoMap := List (String × Bytes)

/-- A `types.NamespacedName`: namespace and name. -/
abbrev NsName := String × String

/-- The Page reconciler's shared cache `r.Data : map[NamespacedName]PageData`. -/
abbrev CacheMap := List (NsName × GoMap)

/-- Errors returned by external collaborators or constructed by the code.
`backend` stands for an arbitrary client error (including not-found where
the code does not special-case it); `invariantContainers` is the error
built by `updateDeployment` via `fmt.Errorf` when the container count is
wrong. -/
inductive Err where
  | backend (msg : String)
  | invariantContainers (name : String) (count : Nat)
deriving DecidableEq

/-- Result of a call or of a whole reconcile invocation:
`ok` for a nil error, `err e` otherwise. -/
inductive Res where
  | ok
  | err (e : Err)
deriving DecidableEq

/-- Result of a `client.Get`: the code distinguishes not-found from other
errors from success. -/
inductive GetRes (α : Type) where
  | notFound
  | fail (e : Err)
  | found (a : α)
deriving DecidableEq

/-- Lookup in an embedded Go map (first matching key). -/
def mapLookup (k : String) : GoMap → Option Bytes
  | [] => none
  | (k', v) :: rest => if k' = k then some v else mapLookup k rest

/-- The keys of an embedded Go map. -/
def mapKeys (m : GoMap) : List String := m.map Prod.fst

/-- The invariant of Go maps: keys are pairwise distinct. -/
abbrev KeysNodup (m : GoMap) : Prop := (mapKeys m).Nodup

/-- Embedding of Go map assignment `m[k] = v`: replace the value if the
key is present, append the pair otherwise. -/
def mapInsert (m : GoMap) (k : String) (v : Bytes) : GoMap :=
  if m.any (fun kv => kv.1 = k) then
    m.map (fun kv => if kv.1 = k then (k, v) else kv)
  else
    m ++ [(k, v)]

/-- Lookup in the shared cache map. -/
def cacheGet (c : CacheMap) (n : NsName) : Option GoMap :=
  match c with
  | [] => none
  | (n', m) :: rest => if n' = n then some m else cacheGet rest n

/-- Assignment in the shared cache map. -/
def cacheSet (c : CacheMap) (n : NsName) (m : GoMap) : CacheMap :=
  if c.any (fun km => km.1 = n) then
    c.map (fun km => if km.1 = n then (n, m) else km)
  else
    c ++ [(n, m)]

/-- The body of `DataDiffer`'s `for k, old := range oldData` loop for one
entry: true when the key does not exist in `newData` or the value bytes
are not equal. -/
def differEntry (n : GoMap) (kv : String × Bytes) : Bool :=
  match mapLookup kv.1 n with
  | none => true
  | some v => decide (kv.2 ≠ v)

/-- Embedding of `Reconciler.DataDiffer` (part of the `DataProvider`
interface shared by both reconcilers).  A `none` argument is a Go `nil`
map.  Mirrors the source: nil checks first, then length, then a pass over
`oldData` checking presence and byte equality in `newData`. -/
def DataDiffer (oldData newData : Option GoMap) : Bool :=
  match oldData, newData with
  | none, none => false
  | none, some _ => true
  | some _, none => true
  | some o, some n =>
    if o.length ≠ n.length then true
    else o.any (differEntry n)

/-! ### The digest pipeline of `makeHash`

`makeHash` feeds the sorted keys, each followed by its value bytes, into
`crypto/sha1` and base64-encodes the 20-byte digest.  SHA-1 is embedded
from FIPS 180 (which `crypto/sha1` implements) on `Nat` with explicit
`% 2^32`; base64 uses the standard alphabet of `encoding/base64`. -/

/-- The low 32 bits of a natural number (`uint32` arithmetic). -/
def w32 (n : Nat) : Nat := n % 4294967296

/-- 32-bit left rotation by `s` of a value below `2^32`. -/
def rotl32 (s n : Nat) : Nat := ((n <<< s) ||| (n >>> (32 - s))) % 4294967296

/-- Big-endian 32-bit words from a byte sequence. -/
def sha1Words : Bytes → List Nat
  | a :: b :: c :: d :: rest => ((a <<< 24) + (b <<< 16) + (c <<< 8) + d) :: sha1Words rest
  | _ => []

/-- One step of the SHA-1 message-schedule extension: append
`rotl1 (w[i-3] xor w[i-8] xor w[i-14] xor w[i-16])`. -/
def sha1ExtendStep (ws : List Nat) : List Nat :=
  let l := ws.length
  ws ++ [rotl32 1 ((ws.getD (l - 3) 0) ^^^ (ws.getD (l - 8) 0) ^^^
    (ws.getD (l - 14) 0) ^^^ (ws.getD (l - 16) 0))]

/-- Extend the 16 words of a chunk to the 80-word schedule. -/
def sha1Schedule (ws : List Nat) : List Nat := Nat.repeat sha1ExtendStep 64 ws

/-- The five 32-bit words of SHA-1 state. -/
structure Sha1State where
  h0 : Nat
  h1 : Nat
  h2 : Nat
  h3 : Nat
  h4 : Nat
deriving DecidableEq

/-- The SHA-1 round function for round `t`. -/
def sha1F (t b c d : Nat) : Nat :=
  if t < 20 then (b &&& c) ||| ((4294967295 ^^^ b) &&& d)
  else if t < 40 then b ^^^ c ^^^ d
  else if t < 60 then (b &&& c) ||| (b &&& d) ||| (c &&& d)
  else b ^^^ c ^^^ d

/-- The SHA-1 round constant for round `t`. -/
def sha1K (t : Nat) : Nat :=
  if t < 20 then 0x5A827999
  else if t < 40 then 0x6ED9EBA1
  else if t < 60 then 0x8F1BBCDC
  else 0xCA62C1D6

/-- One SHA-1 round: `tw` is the pair (round index, schedule word). -/
def sha1Round (st : Sha1State) (tw : Nat × Nat) : Sha1State :=
  let temp := w32 (rotl32 5 st.h0 + sha1F tw.1 st.h1 st.h2 st.h3 + st.h4 + sha1K tw.1 + tw.2)
  ⟨temp, st.h0, rotl32 30 st.h1, st.h2, st.h3⟩

/-- Compress one 64-byte chunk into the running state. -/
def sha1Compress (st : Sha1State) (chunk : Bytes) : Sha1State :=
  let r := (sha1Schedule (sha1Words chunk)).enum.foldl sha1Round st
  ⟨w32 (st.h0 + r.h0), w32 (st.h1 + r.h1), w32 (st.h2 + r.h2),
   w32 (st.h3 + r.h3), w32 (st.h4 + r.h4)⟩

/-- Big-endian 8-byte encoding of the bit length. -/
def be64 (n : Nat) : Bytes :=
  [(n >>> 56) % 256, (n >>> 48) % 256, (n >>> 40) % 256, (n >>> 32) % 256,
   (n >>> 24) % 256, (n >>> 16) % 256, (n >>> 8) % 256, n % 256]

/-- Big-endian 4-byte encoding of a 32-bit word. -/
def be32 (n : Nat) : Bytes :=
  [(n >>> 24) % 256, (n >>> 16) % 256, (n >>> 8) % 256, n % 256]

/-- SHA-1 padding: a 0x80 byte, zeros to 56 mod 64, then the bit length. -/
def sha1Pad (msg : Bytes) : Bytes :=
  msg ++ 128 :: List.replicate ((119 - msg.length % 64) % 64) 0 ++ be64 (msg.length * 8)

/-- Split a byte sequence into 64-byte chunks. -/
def toChunks (l : Bytes) : List Bytes :=
  if h : l = [] then []
  else l.take 64 :: toChunks (l.drop 64)
termination_by l.length
decreasing_by
  have hl : 0 < l.length := List.length_pos.mpr h
  simp only [List.length_drop]
  omega

/-- The SHA-1 digest (20 bytes) of a byte sequence. -/
def sha1 (msg : Bytes) : Bytes :=
  let st := (toChunks (sha1Pad msg)).foldl sha1Compress
    ⟨0x67452301, 0xEFCDAB89, 0x98BADCFE, 0x10325476, 0xC3D2E1F0⟩
  be32 st.h0 ++ be32 st.h1 ++ be32 st.h2 ++ be32 st.h3 ++ be32 st.h4

/-- The standard base64 alphabet character for a 6-bit value. -/
def b64Char (n : Nat) : Char :=
  "ABCDEFGHIJKLMNOPQRSTUVWXYZabcdefghijklmnopqrstuvwxyz0123456789+/".toList.getD n '?'

/-- Standard base64 encoding with padding, three input bytes at a time. -/
def base64Chars : Bytes → List Char
  | [] => []
  | [a] => [b64Char (a >>> 2), b64Char ((a % 4) <<< 4), '=', '=']
  | [a, b] => [b64Char (a >>> 2), b64Char (((a % 4) <<< 4) + (b >>> 4)), b64Char ((b % 16) <<< 2), '=']
  | a :: b :: c :: rest =>
    b64Char (a >>> 2) :: b64Char (((a % 4) <<< 4) + (b >>> 4)) ::
      b64Char (((b % 16) <<< 2) + (c >>> 6)) :: b64Char (c % 64) :: base64Chars rest

/-- `base64.StdEncoding.EncodeToString`. -/
def base64Encode (bs : Bytes) : String := String.mk (base64Chars bs)

/-- The UTF-8 bytes of a string (what `io.WriteString` feeds to the digest). -/
def strBytes (s : String) : Bytes := s.toUTF8.toList.map (fun b => b.toNat)

/-- Insert a string into an ascending list (helper of `sortStrings`). -/
def insertSorted (x : String) : List String → List String
  | [] => [x]
  | y :: ys => if x ≤ y then x :: y :: ys else y :: insertSorted x ys

/-- Ascending sort of the gathered keys, modelling `sort.Strings`. -/
def sortStrings (l : List String) : List String := l.foldr insertSorted []

/-- The byte stream `makeHash` feeds into the digest: for each key in
sorted order, the key's bytes then its value's bytes. -/
def hashStream (data : GoMap) : Bytes :=
  (sortStrings (mapKeys data)).foldl
    (fun acc k => acc ++ strBytes k ++ (mapLookup k data).getD []) []

/-- Embedding of `makeHash`: sorted keys, key-then-value into SHA-1,
base64 text output. -/
def makeHash (data : GoMap) : String := base64Encode (sha1 (hashStream data))

/-! ### The Page reconciler

`pageReconcile` embeds `Reconciler.Reconcile` of the pages package.  The
environment supplies the result of each external call the invocation can
make, in program order: the Page get, the finalizer-add update, the
WebServer get, the Page list, the WebServer status update, and the
finalizer-remove update.  The outcome records the returned result, the
cache left behind, and which persisted side effects were issued. -/

/-- A Page object as the reconciler reads it. -/
structure PageObj where
  pns : String
  pname : String
  sName : String
  sContents : Bytes
  sWebServer : String
  deleted : Bool
  finalizers : List String
deriving DecidableEq

/-- The finalizer token `pageFinalizer`. -/
def pageFinalizer : String := "tomasji.github.com/finalizer"

/-- Result of `r.List`. -/
inductive ListRes where
  | fail (e : Err)
  | ok (items : List PageObj)
deriving DecidableEq

/-- External-call results consumed by one `Reconcile` invocation of the
Page reconciler. -/
structure PageEnv where
  getPage : GetRes PageObj
  updAddFin : Res
  getWeb : Res
  listPages : ListRes
  updWebStatus : Res
  updRemoveFin : Res
deriving DecidableEq

/-- Observable outcome of one Page reconcile invocation.  `finAdded` and
`finRemoved` are true when the corresponding finalizer update was
persisted; `listCalled` is true when `r.List` was invoked; `statusHash`
holds the digest written to the WebServer when `setWebStatus` was
persisted. -/
structure PageOut where
  res : Res
  cache : CacheMap
  finAdded : Bool
  finRemoved : Bool
  listCalled : Bool
  statusHash : Option String
deriving DecidableEq

/-- The aggregation loop of `prepareData`: build the new data map from
the listed pages, skipping every page marked for deletion, assigning
`newData[page.Spec.Name] = page.Spec.Contents`. -/
def buildData (items : List PageObj) : GoMap :=
  items.foldl (fun m p => if p.deleted then m else mapInsert m p.sName p.sContents) []

/-- Embedding of `Reconciler.prepareData`: list the pages for the site,
build the new map, compare with the cached one, and on difference store
it and return the digest.  Returns (changed, hash, error, cache after). -/
def prepareData (lst : ListRes) (cache : CacheMap) (ns webName : String) :
    Bool × String × Option Err × CacheMap :=
  match lst with
  | .fail e => (false, "", some e, cache)
  | .ok items =>
    let newData := buildData items
    let oldData := cacheGet cache (ns, webName)
    if DataDiffer oldData (some newData) then
      (true, makeHash newData, none, cacheSet cache (ns, webName) newData)
    else
      (false, "", none, cache)

/-- Embedding of the Page `Reconciler.Reconcile`.  Mirrors the source
order: get the page; if not marked for deletion, add the finalizer (and
persist if it was missing); get the referenced WebServer; `prepareData`
(a listing failure is only logged); on change, `setWebStatus`; if marked
for deletion, remove the finalizer and persist. -/
def pageReconcile (env : PageEnv) (cache : CacheMap) : PageOut :=
  match env.getPage with
  | .notFound => ⟨.ok, cache, false, false, false, none⟩
  | .fail e => ⟨.err e, cache, false, false, false, none⟩
  | .found page =>
    let marked := page.deleted
    let afterFinalizer : Bool → PageOut := fun finAdded =>
      match env.getWeb with
      | .err e => ⟨.err e, cache, finAdded, false, false, none⟩
      | .ok =>
        let pd := prepareData env.listPages cache page.pns page.sWebServer
        let changed := pd.1
        let hash := pd.2.1
        let cache' := pd.2.2.2
        let afterStatus : Option String → PageOut := fun sh =>
          if marked && page.finalizers.contains pageFinalizer then
            match env.updRemoveFin with
            | .err e => ⟨.err e, cache', finAdded, false, true, sh⟩
            | .ok => ⟨.ok, cache', finAdded, true, true, sh⟩
          else ⟨.ok, cache', finAdded, false, true, sh⟩
        if changed then
          match env.updWebStatus with
          | .err e => ⟨.err e, cache', finAdded, false, true, none⟩
          | .ok => afterStatus (some hash)
        else afterStatus none
    if marked then afterFinalizer false
    else if page.finalizers.contains pageFinalizer then afterFinalizer false
    else
      match env.updAddFin with
      | .err e => ⟨.err e, cache, false, false, false, none⟩
      | .ok => afterFinalizer true

/-- The model of the `spec.webserver` index collaborator registered in
`SetupWithManager` combined with `client.InNamespace`: the pages of the
namespace whose `Spec.WebServer` equals the site name. -/
def listPagesFor (u : List PageObj) (ns site : String) : List PageObj :=
  u.filter (fun p => p.pns = ns ∧ p.sWebServer = site)

/-! ### The WebServer reconciler

`webReconcile` embeds the site `Reconciler.Reconcile`: fetch, optional
initial status, the five ensure-steps in order, final status.  Each
ensure-step's child handling is abstracted to its outcome
(`stepOutcome`); a step failure goes through `failWithStatus`, which
upserts a condition, attempts the status write and re-fetch (failures
there are only logged) and returns the original error.  The outcome
records each condition passed to `meta.SetStatusCondition` before a
status write was attempted, in order. -/

/-- `metav1.ConditionStatus`. -/
inductive ConditionStatus where
  | ctrue
  | cfalse
  | cunknown
deriving DecidableEq

/-- A `metav1.Condition` (the fields the code sets). -/
structure Condition where
  ctype : String
  status : ConditionStatus
  reason : String
  message : String
deriving DecidableEq

/-- The condition `setStatus` upserts: type `Available`, constant reason
`Reconciling`, and the message passed by the caller. -/
def availCond (s : ConditionStatus) (msg : String) : Condition :=
  { ctype := "Available", status := s, reason := "Reconciling", message := msg }

/-- The five ensure-steps of the site reconciler. -/
inductive StepName where
  | deployment
  | configCM
  | dataCM
  | service
  | ingress
deriving DecidableEq

/-- The fixed order of `reconcileFuncs` in the source. -/
def stepOrder : List StepName :=
  [.deployment, .configCM, .dataCM, .service, .ingress]

/-- External-call results consumed by one WebServer reconcile.
`stepOutcome s` is the result of step `s`'s child handling (`none` for
success); `failUpd`/`failRefetch` are the results of the status write and
re-fetch performed inside `failWithStatus` for that step. -/
structure WebEnv where
  getWeb : GetRes (List Condition)
  initUpd : Res
  initRefetch : Res
  stepOutcome : StepName → Option Err
  failUpd : StepName → Res
  failRefetch : StepName → Res
  finalUpd : Res
  finalRefetch : Res

/-- Observable outcome of one WebServer reconcile invocation:
the returned result, the steps that ran (in order), the conditions
passed to status writes (in order), and the number of successful
re-fetches of the site object. -/
structure WebOut where
  res : Res
  stepsRun : List StepName
  statusWrites : List Condition
  refetches : Nat
deriving DecidableEq

/-- The `for _, reconcileFunc := range reconcileFuncs` loop, followed by
the final `setStatus(True, "Finished reconciliation")`.  A failing step
goes through `failWithStatus`: the condition
`Available=False, reason=Reconciling, message="Failed to create
deployment"` is upserted and its write attempted, errors there are only
logged, and the step's original error is returned. -/
def runSteps (env : WebEnv) (writes : List Condition) (acc : List StepName)
    (refs : Nat) : List StepName → WebOut
  | [] =>
    let writes' := writes ++ [availCond .ctrue "Finished reconciliation"]
    match env.finalUpd with
    | .err e => ⟨.err e, acc, writes', refs⟩
    | .ok =>
      match env.finalRefetch with
      | .err e => ⟨.err e, acc, writes', refs⟩
      | .ok => ⟨.ok, acc, writes', refs + 1⟩
  | s :: rest =>
    match env.stepOutcome s with
    | none => runSteps env writes (acc ++ [s]) refs rest
    | some e =>
      let writes' := writes ++ [availCond .cfalse "Failed to create deployment"]
      let refs' :=
        match env.failUpd s, env.failRefetch s with
        | .ok, .ok => refs + 1
        | _, _ => refs
      ⟨.err e, acc ++ [s], writes', refs'⟩

/-- Embedding of the site `Reconciler.Reconcile`: get the object (gone
means success); if the condition list is empty, `setStatus(Unknown,
"Starting reconciliation")` and re-fetch; then the five steps. -/
def webReconcile (env : WebEnv) : WebOut :=
  match env.getWeb with
  | .notFound => ⟨.ok, [], [], 0⟩
  | .fail e => ⟨.err e, [], [], 0⟩
  | .found conds =>
    if conds.isEmpty then
      let writes := [availCond .cunknown "Starting reconciliation"]
      match env.initUpd with
      | .err e => ⟨.err e, [], writes, 0⟩
      | .ok =>
        match env.initRefetch with
        | .err e => ⟨.err e, [], writes, 0⟩
        | .ok => runSteps env writes [] 1 stepOrder
    else runSteps env [] [] 0 stepOrder

/-! ### The Workload (Deployment) ensure-step in detail

`reconcileDeployment`, `deploymentDiffers` and `updateDeployment` are
embedded precisely because the container-count corruption path and the
replica-pointer dereference live there.  `deploymentDiffers` returns
`none` where the Go code would dereference a nil `*int32` (a panic). -/

/-- A container of a Deployment (the field the code reads). -/
structure Container where
  image : String
deriving DecidableEq

/-- A Deployment as the step reads it: its name, containers, and the
`*int32` replica pointer. -/
structure DeploymentObj where
  dname : String
  containers : List Container
  replicas : Option Int
deriving DecidableEq

/-- The WebServer spec fields the Workload step consumes. -/
structure WebServerObj where
  wns : String
  wname : String
  image : String
  replicas : Int
deriving DecidableEq

/-- Embedding of `deploymentDiffers`.  Go's `||` short-circuits: the
replica pointer is dereferenced only when the container count is one and
the image comparison came out equal.  `none` models the nil-pointer
panic. -/
def deploymentDiffers (web : WebServerObj) (d : DeploymentObj) : Option Bool :=
  if d.containers.length ≠ 1 then some true
  else if web.image ≠ (d.containers.headD { image := "" }).image then some true
  else
    match d.replicas with
    | none => none
    | some r => some (decide (web.replicas ≠ r))

/-- External-call results consumed by `reconcileDeployment`.
`deleteRes` is the result of the `r.Delete` in the corruption path; the
code only logs it. -/
structure DepEnv where
  getDep : GetRes DeploymentObj
  createRes : Res
  deleteRes : Res
  updateRes : Res
  failUpd : Res
  failRefetch : Res
deriving DecidableEq

/-- Observable outcome of the Workload step: the result it returns to the
step loop, and which child operations were issued. -/
structure DepOut where
  res : Res
  created : Bool
  deleted : Bool
  updated : Bool
  panicked : Bool
deriving DecidableEq

/-- Embedding of `updateDeployment`: with a wrong container count, delete
the deployment (its error only logged) and return the constructed
invariant error; otherwise set image and replicas and update.  Returns
(result, delete issued, update persisted). -/
def updateDeployment (env : DepEnv) (d : DeploymentObj) : Res × Bool × Bool :=
  if d.containers.length ≠ 1 then
    (.err (.invariantContainers d.dname d.containers.length), true, false)
  else
    match env.updateRes with
    | .err e => (.err e, false, false)
    | .ok => (.ok, false, true)

/-- Embedding of `reconcileDeployment`: fetch the child; absent means
create; present means diff and update when different.  All failures pass
through `failWithStatus` and return the original error. -/
def reconcileDeployment (env : DepEnv) (web : WebServerObj) : DepOut :=
  match env.getDep with
  | .fail e => ⟨.err e, false, false, false, false⟩
  | .notFound =>
    match env.createRes with
    | .err e => ⟨.err e, false, false, false, false⟩
    | .ok => ⟨.ok, true, false, false, false⟩
  | .found d =>
    match deploymentDiffers web d with
    | none => ⟨.err (.backend "nil pointer dereference"), false, false, false, true⟩
    | some false => ⟨.ok, false, false, false, false⟩
    | some true =>
      match updateDeployment env d with
      | (r, del, upd) => ⟨r, false, del, upd, false⟩

/-- The spec's §4.3 equality rule for two present aggregates, stated as
written: key-set sizes differ, or some key is present on exactly one
side, or some shared key's value bytes differ. -/
def BothPresentDiffer (o n : GoMap) : Prop :=
  (mapKeys o).length ≠ (mapKeys n).length ∨
  (∃ k, (k ∈ mapKeys o ∧ k ∉ mapKeys n) ∨ (k ∈ mapKeys n ∧ k ∉ mapKeys o)) ∨
  (∃ k v w, mapLookup k o = some v ∧ mapLookup k n = some w ∧ v ≠ w)

/-- Well-formedness of the shared cache: every stored aggregate has
pairwise-distinct keys (true of every map `prepareData` stores). -/
abbrev CacheWF (c : CacheMap) : Prop := ∀ e ∈ c, KeysNodup e.2

/-- The step function of `buildData`'s loop. -/
def buildStep (m : GoMap) (p : PageObj) : GoMap :=
  if p.deleted then m else mapInsert m p.sName p.sContents

/-- The spec-side aggregate for C6, following the spec's words: the map
built from exactly those listed pages of the namespace referencing the
site that are not marked for deletion, mapping display-name to content
bytes. -/
def aggregateSpec (u : List PageObj) (ns site : String) : GoMap :=
  ((listPagesFor u ns site).filter (fun p => !p.deleted)).foldl
    (fun m p => mapInsert m p.sName p.sContents) []

/-- A concrete environment whose DataConfigBlob step fails (used to
exhibit C4's abort behaviour on a concrete run). -/
def c4env : WebEnv :=
  { getWeb := .found [availCond .ctrue "prior"]
    initUpd := .ok
    initRefetch := .ok
    stepOutcome := fun s => match s with
      | .dataCM => some (.backend "boom")
      | _ => none
    failUpd := fun _ => .ok
    failRefetch := fun _ => .ok
    finalUpd := .ok
    finalRefetch := .ok }

/-- A concrete environment whose NetworkEndpoint (Service) step fails and
whose failure-path status write itself fails. -/
def c7envA : WebEnv :=
  { getWeb := .found [availCond .ctrue "prior"]
    initUpd := .ok
    initRefetch := .ok
    stepOutcome := fun s => match s with
      | .service => some (.backend "boom")
      | _ => none
    failUpd := fun _ => .err (.backend "status write failed")
    failRefetch := fun _ => .ok
    finalUpd := .ok
    finalRefetch := .ok }

/-- Like `c7envA` but the ExternalRoute (Ingress) step fails instead. -/
def c7envB : WebEnv :=
  { getWeb := .found [availCond .ctrue "prior"]
    initUpd := .ok
    initRefetch := .ok
    stepOutcome := fun s => match s with
      | .ingress => some (.backend "boom2")
      | _ => none
    failUpd := fun _ => .err (.backend "status write failed")
    failRefetch := fun _ => .ok
    finalUpd := .ok
    finalRefetch := .ok }

/-- A concrete fully-successful run starting from an empty condition
list. -/
def c8env : WebEnv :=
  { getWeb := .found []
    initUpd := .ok
    initRefetch := .ok
    stepOutcome := fun _ => none
    failUpd := fun _ => .ok
    failRefetch := fun _ => .ok
    finalUpd := .ok
    finalRefetch := .ok }

/-- A deletion-marked page carrying the finalizer, display name `idx`. -/
def c1pg : PageObj :=
  { pns := "ns", pname := "p1", sName := "idx", sContents := [104]
    sWebServer := "s1", deleted := true, finalizers := [pageFinalizer] }

/-- A cache whose entry for the site still contains the page's entry. -/
def c1cache : CacheMap := [(("ns", "s1"), [("idx", [104])])]

/-- An environment in which the page listing fails and everything else
succeeds. -/
def c1env : PageEnv :=
  { getPage := .found c1pg, updAddFin := .ok, getWeb := .ok
    listPages := .fail (.backend "list failed"), updWebStatus := .ok
    updRemoveFin := .ok }

/-- An environment in which the listing returns just the deleted page. -/
def c1wenv : PageEnv :=
  { getPage := .found c1pg, updAddFin := .ok, getWeb := .ok
    listPages := .ok [c1pg], updWebStatus := .ok, updRemoveFin := .ok }

/-- A cache already reflecting the page's exclusion (empty aggregate). -/
def c1wcache : CacheMap := [(("ns", "s1"), [])]

/-- A live page without the finalizer, referencing site `s1`. -/
def c9pg : PageObj :=
  { pns := "ns", pname := "p1", sName := "idx", sContents := [104]
    sWebServer := "s1", deleted := false, finalizers := [] }

/-- An environment whose WebServer fetch fails (site absent). -/
def c9env : PageEnv :=
  { getPage := .found c9pg, updAddFin := .ok
    getWeb := .err (.backend "webserver not found")
    listPages := .ok [], updWebStatus := .ok, updRemoveFin := .ok }

/-- A deletion-marked page carrying the finalizer whose WebServer fetch
fails. -/
def c9pgDel : PageObj :=
  { pns := "ns", pname := "p2", sName := "idx", sContents := [104]
    sWebServer := "s1", deleted := true, finalizers := [pageFinalizer] }

/-- Environment for `c9pgDel` with a failing WebServer fetch. -/
def c9envDel : PageEnv :=
  { getPage := .found c9pgDel, updAddFin := .ok
    getWeb := .err (.backend "webserver not found")
    listPages := .ok [], updWebStatus := .ok, updRemoveFin := .ok }

/-! ### Association-list lemmas for the embedded Go maps -/

theorem mapLookup_eq_some_mem {k : String} {v : Bytes} {m : GoMap}
    (h : mapLookup k m = some v) : (k, v) ∈ m := by
  induction m with
  | nil => simp [mapLookup] at h
  | cons kv rest ih =>
    obtain ⟨k', w⟩ := kv
    by_cases hk : k' = k
    · subst hk
      simp [mapLookup] at h
      subst h
      exact List.mem_cons_self _ _
    · simp [mapLookup, hk] at h
      exact List.mem_cons_of_mem _ (ih h)

theorem mem_mapKeys_of_lookup {k : String} {v : Bytes} {m : GoMap}
    (h : mapLookup k m = some v) : k ∈ mapKeys m :=
  List.mem_map_of_mem Prod.fst (mapLookup_eq_some_mem h)

theorem mapLookup_eq_none_iff {k : String} {m : GoMap} :
    mapLookup k m = none ↔ k ∉ mapKeys m := by
  induction m with
  | nil => simp [mapLookup, mapKeys]
  | cons kv rest ih =>
    obtain ⟨k', w⟩ := kv
    by_cases hk : k' = k
    · subst hk
      simp [mapLookup, mapKeys]
    · simp [mapLookup, mapKeys, hk, Ne.symm hk] at ih ⊢
      exact ih

theorem mem_mapKeys_iff_lookup {k : String} {m : GoMap} :
    k ∈ mapKeys m ↔ ∃ v, mapLookup k m = some v := by
  constructor
  · intro h
    rcases hl : mapLookup k m with _ | v
    · exact absurd h (mapLookup_eq_none_iff.mp hl)
    · exact ⟨v, rfl⟩
  · rintro ⟨v, hv⟩
    exact mem_mapKeys_of_lookup hv

theorem mem_mapKeys_of_mem {kv : String × Bytes} {m : GoMap} (h : kv ∈ m) :
    kv.1 ∈ mapKeys m := List.mem_map_of_mem Prod.fst h

theorem mapLookup_of_mem {k : String} {v : Bytes} {m : GoMap}
    (h : (k, v) ∈ m) (hn : KeysNodup m) : mapLookup k m = some v := by
  induction m with
  | nil => simp at h
  | cons kv rest ih =>
    obtain ⟨k', w⟩ := kv
    have hn' : (k' ∉ mapKeys rest) ∧ KeysNodup rest := by
      have hk : mapKeys ((k', w) :: rest) = k' :: mapKeys rest := rfl
      rw [KeysNodup, hk, List.nodup_cons] at hn
      exact hn
    rcases List.mem_cons.mp h with heq | hmem
    · injection heq with h1 h2
      subst h1
      subst h2
      simp [mapLookup]
    · by_cases hk : k' = k
      · subst hk
        exact absurd (mem_mapKeys_of_mem hmem) hn'.1
      · simp only [mapLookup, if_neg hk]
        exact ih hmem hn'.2

theorem length_mapKeys (m : GoMap) : (mapKeys m).length = m.length := by
  simp [mapKeys]

/-- The per-entry check of `DataDiffer` is false exactly when the entry's
key is present in the other map with byte-identical value. -/
theorem differEntry_false_iff (n : GoMap) (kv : String × Bytes) :
    differEntry n kv = false ↔ mapLookup kv.1 n = some kv.2 := by
  rcases h : mapLookup kv.1 n with _ | v
  · simp [differEntry, h]
  · simp only [differEntry, h, decide_eq_false_iff_not, ne_eq, not_not, Option.some.injEq]
    exact ⟨fun hv => hv.symm, fun hv => hv.symm⟩

/-- `DataDiffer` on two present maps is false exactly when the maps agree
as functions from keys to values. -/
theorem DataDiffer_false_iff {o n : GoMap} (ho : KeysNodup o) (hn : KeysNodup n) :
    DataDiffer (some o) (some n) = false ↔ ∀ k, mapLookup k o = mapLookup k n := by
  by_cases hlen : o.length = n.length
  · have hd : DataDiffer (some o) (some n) = o.any (differEntry n) := by
      simp [DataDiffer, hlen]
    rw [hd, List.any_eq_false]
    simp only [Bool.not_eq_true]
    constructor
    · intro hall k
      rcases hlo : mapLookup k o with _ | v
      · rcases hln : mapLookup k n with _ | w
        · rfl
        · exfalso
          have hkn : k ∈ mapKeys n := mem_mapKeys_of_lookup hln
          have hsub : mapKeys o ⊆ mapKeys n := by
            intro x hx
            obtain ⟨vx, hvx⟩ := mem_mapKeys_iff_lookup.mp hx
            have hfx := hall ⟨x, vx⟩ (mapLookup_eq_some_mem hvx)
            exact mem_mapKeys_of_lookup ((differEntry_false_iff n ⟨x, vx⟩).mp hfx)
          have hperm : List.Perm (mapKeys o) (mapKeys n) :=
            (List.subperm_of_subset ho hsub).perm_of_length_le
              (le_of_eq (by rw [length_mapKeys, length_mapKeys, hlen]))
          exact (mapLookup_eq_none_iff.mp hlo) (hperm.mem_iff.mpr hkn)
      · have hf := hall ⟨k, v⟩ (mapLookup_eq_some_mem hlo)
        exact ((differEntry_false_iff n ⟨k, v⟩).mp hf).symm
    · intro hpt kv hkv
      rw [differEntry_false_iff]
      rw [← hpt kv.1]
      exact mapLookup_of_mem hkv ho
  · have hd : DataDiffer (some o) (some n) = true := by
      simp [DataDiffer, hlen]
    rw [hd]
    constructor
    · intro h
      exact absurd h (by simp)
    · intro hpt
      exfalso
      apply hlen
      have hperm : List.Perm (mapKeys o) (mapKeys n) := by
        rw [List.perm_ext_iff_of_nodup ho hn]
        intro x
        rw [mem_mapKeys_iff_lookup, mem_mapKeys_iff_lookup, hpt x]
      have hl := hperm.length_eq
      rwa [length_mapKeys, length_mapKeys] at hl

theorem DataDiffer_true_iff {o n : GoMap} (ho : KeysNodup o) (hn : KeysNodup n) :
    DataDiffer (some o) (some n) = true ↔ BothPresentDiffer o n := by
  constructor
  · intro h
    by_cases hlen : o.length = n.length
    · have hany : o.any (differEntry n) = true := by
        have hd : DataDiffer (some o) (some n) = o.any (differEntry n) := by
          simp [DataDiffer, hlen]
        rw [← hd]
        exact h
      obtain ⟨kv, hkv, hf⟩ := List.any_eq_true.mp hany
      rcases hln : mapLookup kv.1 n with _ | v
      · exact Or.inr (Or.inl ⟨kv.1, Or.inl ⟨mem_mapKeys_of_mem hkv,
          mapLookup_eq_none_iff.mp hln⟩⟩)
      · refine Or.inr (Or.inr ⟨kv.1, kv.2, v, mapLookup_of_mem hkv ho, hln, ?_⟩)
        have hde : differEntry n kv = decide (kv.2 ≠ v) := by
          simp [differEntry, hln]
        rw [hde] at hf
        exact of_decide_eq_true hf
    · exact Or.inl (by rw [length_mapKeys, length_mapKeys]; exact hlen)
  · intro h
    rcases hb : DataDiffer (some o) (some n) with _ | _
    · exfalso
      have hpt := (DataDiffer_false_iff ho hn).mp hb
      rcases h with hlen | ⟨k, hk⟩ | ⟨k, v, w, hv, hw, hne⟩
      · apply hlen
        have hperm : List.Perm (mapKeys o) (mapKeys n) := by
          rw [List.perm_ext_iff_of_nodup ho hn]
          intro x
          rw [mem_mapKeys_iff_lookup, mem_mapKeys_iff_lookup, hpt x]
        exact hperm.length_eq
      · have hiff : k ∈ mapKeys o ↔ k ∈ mapKeys n := by
          rw [mem_mapKeys_iff_lookup, mem_mapKeys_iff_lookup, hpt k]
        rcases hk with ⟨h1, h2⟩ | ⟨h1, h2⟩
        · exact h2 (hiff.mp h1)
        · exact h2 (hiff.mpr h1)
      · rw [hpt k, hw] at hv
        exact hne (Option.some.inj hv).symm
    · rfl

/-- `DataDiffer` on two present maps is symmetric. -/
theorem DataDiffer_symm_some {o n : GoMap} (ho : KeysNodup o) (hn : KeysNodup n) :
    DataDiffer (some o) (some n) = DataDiffer (some n) (some o) := by
  rcases h1 : DataDiffer (some o) (some n) with _ | _ <;>
    rcases h2 : DataDiffer (some n) (some o) with _ | _
  · rfl
  · exfalso
    have hpt := (DataDiffer_false_iff ho hn).mp h1
    have : DataDiffer (some n) (some o) = false :=
      (DataDiffer_false_iff hn ho).mpr (fun k => (hpt k).symm)
    rw [this] at h2
    exact Bool.false_ne_true h2
  · exfalso
    have hpt := (DataDiffer_false_iff hn ho).mp h2
    have : DataDiffer (some o) (some n) = false :=
      (DataDiffer_false_iff ho hn).mpr (fun k => (hpt k).symm)
    rw [this] at h1
    exact Bool.false_ne_true h1
  · rfl

/-! ### Cache and aggregate-construction lemmas -/

theorem cacheGet_wf {c : CacheMap} {nm : NsName} {m : GoMap}
    (hwf : CacheWF c) (h : cacheGet c nm = some m) : KeysNodup m := by
  induction c with
  | nil => simp [cacheGet] at h
  | cons km rest ih =>
    obtain ⟨n', m'⟩ := km
    by_cases hk : n' = nm
    · have : some m' = some m := by
        rw [← h]
        simp [cacheGet, hk]
      exact Option.some.inj this ▸ hwf ⟨n', m'⟩ (List.mem_cons_self _ _)
    · have h' : cacheGet rest nm = some m := by
        rw [← h]
        simp [cacheGet, hk]
      exact ih (fun e he => hwf e (List.mem_cons_of_mem _ he)) h'

theorem cacheGet_map_upd {c : CacheMap} {nm : NsName} (m : GoMap)
    (hc : c.any (fun km => km.1 = nm) = true) :
    cacheGet (c.map (fun km => if km.1 = nm then (nm, m) else km)) nm = some m := by
  induction c with
  | nil => simp at hc
  | cons km rest ih =>
    obtain ⟨n', m'⟩ := km
    by_cases hk : (n', m').1 = nm
    · rw [List.map_cons, if_pos hk]
      simp [cacheGet]
    · have hc' : rest.any (fun km => km.1 = nm) = true := by
        rcases List.any_eq_true.mp hc with ⟨x, hx, hxk⟩
        rcases List.mem_cons.mp hx with heq | hxr
        · exact absurd (of_decide_eq_true (heq ▸ hxk)) hk
        · exact List.any_eq_true.mpr ⟨x, hxr, hxk⟩
      rw [List.map_cons, if_neg hk]
      simp only [cacheGet, if_neg hk]
      exact ih hc'

theorem cacheGet_append_single {c : CacheMap} {nm : NsName} (m : GoMap)
    (hc : c.any (fun km => km.1 = nm) = false) :
    cacheGet (c ++ [(nm, m)]) nm = some m := by
  induction c with
  | nil => simp [cacheGet]
  | cons km rest ih =>
    obtain ⟨n', m'⟩ := km
    have h1 := List.any_eq_false.mp hc (n', m') (List.mem_cons_self _ _)
    have h2 : rest.any (fun km => km.1 = nm) = false :=
      List.any_eq_false.mpr (fun x hx => List.any_eq_false.mp hc x (List.mem_cons_of_mem _ hx))
    have hk : ¬((n', m').1 = nm) := by simpa using h1
    simp only [List.cons_append, cacheGet, if_neg hk]
    exact ih h2

/-- Storing an aggregate and reading it back under the same key. -/
theorem cacheGet_cacheSet_self (c : CacheMap) (nm : NsName) (m : GoMap) :
    cacheGet (cacheSet c nm m) nm = some m := by
  unfold cacheSet
  rcases hc : c.any (fun km => km.1 = nm) with _ | _
  · simp only [Bool.false_eq_true, if_false]
    exact cacheGet_append_single m hc
  · simp only [if_true]
    exact cacheGet_map_upd m hc

theorem mapKeys_mapInsert_mem {m : GoMap} {k : String} (v : Bytes)
    (hc : m.any (fun kv => kv.1 = k) = true) :
    mapKeys (mapInsert m k v) = mapKeys m := by
  unfold mapInsert
  rw [hc]
  simp only [if_true, mapKeys, List.map_map]
  apply List.map_congr_left
  intro kv _
  by_cases hk : kv.1 = k
  · simp [hk]
  · simp [hk]

theorem mem_mapKeys_mapInsert {m : GoMap} {k x : String} (v : Bytes) :
    x ∈ mapKeys (mapInsert m k v) ↔ x ∈ mapKeys m ∨ x = k := by
  rcases hc : m.any (fun kv => kv.1 = k) with _ | _
  · unfold mapInsert
    rw [hc]
    simp only [Bool.false_eq_true, if_false, mapKeys, List.map_append]
    simp [mapKeys]
  · rw [mapKeys_mapInsert_mem v hc]
    obtain ⟨kv, hkv, hk⟩ := List.any_eq_true.mp hc
    constructor
    · exact Or.inl
    · rintro (hx | rfl)
      · exact hx
      · exact of_decide_eq_true hk ▸ mem_mapKeys_of_mem hkv

theorem KeysNodup_mapInsert {m : GoMap} (k : String) (v : Bytes)
    (hm : KeysNodup m) : KeysNodup (mapInsert m k v) := by
  rcases hc : m.any (fun kv => kv.1 = k) with _ | _
  · have hnk : k ∉ mapKeys m := by
      intro hk
      obtain ⟨w, hw⟩ := mem_mapKeys_iff_lookup.mp hk
      have hmem := mapLookup_eq_some_mem hw
      have := List.any_eq_false.mp hc ⟨k, w⟩ hmem
      simp at this
    unfold mapInsert
    rw [hc]
    simp only [Bool.false_eq_true, if_false]
    have hkeys : mapKeys (m ++ [(k, v)]) = mapKeys m ++ [k] := by simp [mapKeys]
    rw [KeysNodup, hkeys]
    exact List.Nodup.append hm (List.nodup_singleton k) (by simpa using hnk)
  · rw [KeysNodup, mapKeys_mapInsert_mem v hc]
    exact hm

theorem buildData_eq_foldl (items : List PageObj) :
    buildData items = items.foldl buildStep [] := rfl

theorem foldl_buildStep_keys {x : String} :
    ∀ (items : List PageObj) (acc : GoMap),
      x ∈ mapKeys (items.foldl buildStep acc) →
      x ∈ mapKeys acc ∨ ∃ q, q ∈ items ∧ q.deleted = false ∧ q.sName = x := by
  intro items
  induction items with
  | nil => exact fun acc h => Or.inl h
  | cons p rest ih =>
    intro acc h
    rcases ih (buildStep acc p) h with hacc | ⟨q, hq, hqd, hqn⟩
    · unfold buildStep at hacc
      rcases hd : p.deleted with _ | _
      · rw [hd] at hacc
        simp only [Bool.false_eq_true, if_false] at hacc
        rcases (mem_mapKeys_mapInsert p.sContents).mp hacc with hx | rfl
        · exact Or.inl hx
        · exact Or.inr ⟨p, List.mem_cons_self _ _, hd, rfl⟩
      · rw [hd] at hacc
        simp only [if_true] at hacc
        exact Or.inl hacc
    · exact Or.inr ⟨q, List.mem_cons_of_mem _ hq, hqd, hqn⟩

/-- Every key of the rebuilt aggregate comes from a live (not
deletion-marked) listed page. -/
theorem buildData_keys {x : String} {items : List PageObj}
    (h : x ∈ mapKeys (buildData items)) :
    ∃ q, q ∈ items ∧ q.deleted = false ∧ q.sName = x := by
  rcases foldl_buildStep_keys items [] h with habs | hq
  · simp [mapKeys] at habs
  · exact hq

theorem foldl_buildStep_nodup :
    ∀ (items : List PageObj) (acc : GoMap),
      KeysNodup acc → KeysNodup (items.foldl buildStep acc) := by
  intro items
  induction items with
  | nil => exact fun acc h => h
  | cons p rest ih =>
    intro acc hacc
    apply ih
    unfold buildStep
    rcases hd : p.deleted with _ | _
    · simp only [Bool.false_eq_true, if_false]
      exact KeysNodup_mapInsert _ _ hacc
    · simpa using hacc

/-- The rebuilt aggregate has pairwise-distinct keys. -/
theorem buildData_nodup (items : List PageObj) : KeysNodup (buildData items) :=
  foldl_buildStep_nodup items [] (by simp [KeysNodup, mapKeys])


/-- Skipping a deletion-marked page in the aggregation loop is the same
as folding over the list with those pages filtered out. -/
theorem foldl_buildStep_filter :
    ∀ (items : List PageObj) (acc : GoMap),
      items.foldl buildStep acc =
        (items.filter (fun p => !p.deleted)).foldl
          (fun m p => mapInsert m p.sName p.sContents) acc := by
  intro items
  induction items with
  | nil => intro acc; rfl
  | cons p rest ih =>
    intro acc
    rcases hd : p.deleted with _ | _
    · have hstep : buildStep acc p = mapInsert acc p.sName p.sContents := by
        simp [buildStep, hd]
      simp only [List.foldl_cons, hstep, List.filter_cons]
      rw [if_pos (by simp [hd])]
      simp only [List.foldl_cons]
      exact ih _
    · have hstep : buildStep acc p = acc := by simp [buildStep, hd]
      simp only [List.foldl_cons, hstep, List.filter_cons]
      rw [if_neg (by simp [hd])]
      exact ih _

/-- C2: `DataDiffer` implements the equality rule exactly: nil versus nil
is not differing; exactly one nil is differing; two present maps differ
iff the key-set sizes differ, some key is present on exactly one side, or
some shared key's value bytes are not identical.  Consequently
`DataDiffer A A` is false for every aggregate, nil versus
empty-but-present is true, and the comparison is symmetric. -/
theorem c2_DataDiffer_equality_rule (o n m : GoMap)
    (ho : KeysNodup o) (hn : KeysNodup n) (hm : KeysNodup m) :
    DataDiffer none none = false ∧
    DataDiffer none (some m) = true ∧
    DataDiffer (some m) none = true ∧
    (DataDiffer (some o) (some n) = true ↔ BothPresentDiffer o n) ∧
    DataDiffer (some m) (some m) = false ∧
    DataDiffer none (some ([] : GoMap)) = true ∧
    DataDiffer (some o) (some n) = DataDiffer (some n) (some o) := by
  refine ⟨rfl, rfl, rfl, DataDiffer_true_iff ho hn, ?_, rfl, DataDiffer_symm_some ho hn⟩
  exact (DataDiffer_false_iff hm hm).mpr (fun k => rfl)

theorem c2_DataDiffer_equality_rule_witness :
    (KeysNodup [("a", [1])] ∧ KeysNodup [("b", [2]), ("c", [])] ∧
      KeysNodup [("k", [7])]) ∧
    (DataDiffer none none = false ∧
     DataDiffer none (some [("k", [7])]) = true ∧
     DataDiffer (some [("k", [7])]) none = true ∧
     (DataDiffer (some [("a", [1])]) (some [("b", [2]), ("c", [])]) = true ↔
       BothPresentDiffer [("a", [1])] [("b", [2]), ("c", [])]) ∧
     DataDiffer (some [("k", [7])]) (some [("k", [7])]) = false ∧
     DataDiffer none (some ([] : GoMap)) = true ∧
     DataDiffer (some [("a", [1])]) (some [("b", [2]), ("c", [])]) =
       DataDiffer (some [("b", [2]), ("c", [])]) (some [("a", [1])])) :=
  ⟨by decide,
   c2_DataDiffer_equality_rule [("a", [1])] [("b", [2]), ("c", [])] [("k", [7])]
     (by decide) (by decide) (by decide)⟩

/-- C6: the aggregate recomputed by `prepareData` from the indexed
listing (`listPagesFor`) equals the map built from exactly the listed
pages of the namespace referencing the site that are not marked for
deletion, mapping display-name to content bytes; a deletion-marked page
contributes no key of its own. -/
theorem c6_prepareData_recomputed_aggregate (u : List PageObj) (ns site : String) :
    buildData (listPagesFor u ns site) = aggregateSpec u ns site ∧
    ∀ k, k ∈ mapKeys (buildData (listPagesFor u ns site)) →
      ∃ q, q ∈ listPagesFor u ns site ∧ q.deleted = false ∧ q.sName = k := by
  constructor
  · rw [buildData_eq_foldl]
    exact foldl_buildStep_filter _ []
  · exact fun k hk => buildData_keys hk


/-- C5: a fetched Workload whose container count is not exactly 1 is
deleted and the pass returns the constructed invariant error; no create
is issued, no update of the corrupt object is issued, and no repair is
attempted. -/
theorem c5_corrupt_workload_deleted (env : DepEnv) (web : WebServerObj)
    (d : DeploymentObj) (hget : env.getDep = .found d)
    (hcnt : d.containers.length ≠ 1) :
    reconcileDeployment env web =
      ⟨.err (.invariantContainers d.dname d.containers.length),
        false, true, false, false⟩ := by
  have hdiff : deploymentDiffers web d = some true := by
    simp [deploymentDiffers, hcnt]
  have hupd : updateDeployment env d =
      (.err (.invariantContainers d.dname d.containers.length), true, false) := by
    simp [updateDeployment, hcnt]
  simp [reconcileDeployment, hget, hdiff, hupd]

theorem c5_corrupt_workload_deleted_witness :
    ((⟨.found ⟨"w1", [], none⟩, .ok, .ok, .ok, .ok, .ok⟩ : DepEnv).getDep =
        .found ⟨"w1", [], none⟩ ∧
      (⟨"w1", [], none⟩ : DeploymentObj).containers.length ≠ 1) ∧
    reconcileDeployment (⟨.found ⟨"w1", [], none⟩, .ok, .ok, .ok, .ok, .ok⟩ : DepEnv)
        ⟨"ns", "w1", "img", 1⟩ =
      ⟨.err (.invariantContainers "w1" 0), false, true, false, false⟩ :=
  ⟨by decide,
   c5_corrupt_workload_deleted ⟨.found ⟨"w1", [], none⟩, .ok, .ok, .ok, .ok, .ok⟩
     ⟨"ns", "w1", "img", 1⟩ ⟨"w1", [], none⟩ (by decide) (by decide)⟩

/-- C10 (amended): `deploymentDiffers` hits the nil replica-pointer
dereference exactly when the container count is one, the image matches
the spec, and the pointer is nil; in particular the comparison is defined
whenever a one-container Workload carries a present replica count, and
the image inequality short-circuits the dereference. -/
theorem c10_deploymentDiffers_nil_replicas (web : WebServerObj) (d : DeploymentObj) :
    deploymentDiffers web d = none ↔
      ∃ c, d.containers = [c] ∧ web.image = c.image ∧ d.replicas = none := by
  unfold deploymentDiffers
  rcases hcs : d.containers with _ | ⟨c, rest⟩
  · simp
  · rcases rest with _ | ⟨c2, rest2⟩
    · by_cases him : web.image = c.image
      · rcases hr : d.replicas with _ | r
        · simp [him]
        · simp [him]
      · simp [him]
    · simp

/-- C10 counterexample: with exactly one container, a nil replica
pointer, and a differing image, `deploymentDiffers` returns a defined
answer (no dereference happens), refuting that the pointer is
dereferenced whenever the container count is exactly 1. -/
theorem c10_counterexample :
    deploymentDiffers ⟨"ns", "w1", "imageA", 1⟩ ⟨"w1", [⟨"imageB"⟩], none⟩ =
        some true ∧
    ([⟨"imageB"⟩] : List Container).length = 1 ∧
    (⟨"w1", [⟨"imageB"⟩], none⟩ : DeploymentObj).replicas = none := by
  refine ⟨?_, rfl, rfl⟩
  decide


/-! ### Step-loop lemmas for the WebServer reconciler -/

theorem runSteps_stepsRun_append (env : WebEnv) :
    ∀ (l acc : List StepName) (writes : List Condition) (refs : Nat),
      ∃ t, (runSteps env writes acc refs l).stepsRun = acc ++ t ∧ t <+: l := by
  intro l
  induction l with
  | nil =>
    intro acc writes refs
    refine ⟨[], ?_, List.nil_prefix⟩
    rcases hfu : env.finalUpd with _ | e
    · rcases hfr : env.finalRefetch with _ | e
      · simp [runSteps, hfu, hfr]
      · simp [runSteps, hfu, hfr]
    · simp [runSteps, hfu]
  | cons st rest ih =>
    intro acc writes refs
    rcases hs : env.stepOutcome st with _ | e
    · obtain ⟨t, ht, hp⟩ := ih (acc ++ [st]) writes refs
      refine ⟨st :: t, ?_, List.cons_prefix_cons.mpr ⟨rfl, hp⟩⟩
      simp only [runSteps, hs]
      rw [ht, List.append_assoc]
      rfl
    · refine ⟨[st], ?_, List.cons_prefix_cons.mpr ⟨rfl, List.nil_prefix⟩⟩
      simp [runSteps, hs]

theorem runSteps_all_ok (env : WebEnv) :
    ∀ (l acc : List StepName) (writes : List Condition) (refs : Nat),
      (∀ s ∈ l, env.stepOutcome s = none) →
      (runSteps env writes acc refs l).stepsRun = acc ++ l ∧
      (runSteps env writes acc refs l).statusWrites =
        writes ++ [availCond .ctrue "Finished reconciliation"] ∧
      (env.finalUpd = .ok → env.finalRefetch = .ok →
        (runSteps env writes acc refs l).res = .ok) := by
  intro l
  induction l with
  | nil =>
    intro acc writes refs _
    rcases hfu : env.finalUpd with _ | e
    · rcases hfr : env.finalRefetch with _ | e
      · simp [runSteps, hfu, hfr]
      · refine ⟨by simp [runSteps, hfu, hfr], by simp [runSteps, hfu, hfr], ?_⟩
        intro _ h2
        cases h2
    · refine ⟨by simp [runSteps, hfu], by simp [runSteps, hfu], ?_⟩
      intro h1 _
      cases h1
  | cons st rest ih =>
    intro acc writes refs h
    have hs : env.stepOutcome st = none := h st (List.mem_cons_self _ _)
    have hrec := ih (acc ++ [st]) writes refs (fun x hx => h x (List.mem_cons_of_mem _ hx))
    simp only [runSteps, hs]
    refine ⟨?_, hrec.2.1, hrec.2.2⟩
    rw [hrec.1, List.append_assoc]
    rfl

theorem runSteps_first_fail (env : WebEnv) :
    ∀ (l : List StepName) (i : Nat) (acc : List StepName) (writes : List Condition)
      (refs : Nat) (e : Err),
      i < l.length →
      env.stepOutcome (l.getD i .deployment) = some e →
      (∀ j, j < i → env.stepOutcome (l.getD j .deployment) = none) →
      (runSteps env writes acc refs l).stepsRun = acc ++ l.take (i + 1) ∧
      (runSteps env writes acc refs l).res = .err e ∧
      (runSteps env writes acc refs l).statusWrites =
        writes ++ [availCond .cfalse "Failed to create deployment"] := by
  intro l
  induction l with
  | nil =>
    intro i acc writes refs e hi
    simp at hi
  | cons st rest ih =>
    intro i acc writes refs e hi hfail hprev
    cases i with
    | zero =>
      have hs : env.stepOutcome st = some e := by simpa using hfail
      simp [runSteps, hs]
    | succ i2 =>
      have hs : env.stepOutcome st = none := by
        have h0 := hprev 0 (Nat.succ_pos i2)
        simpa using h0
      simp only [runSteps, hs]
      have hi2 : i2 < rest.length := by simpa using hi
      have hfail2 : env.stepOutcome (rest.getD i2 .deployment) = some e := by
        simpa using hfail
      have hprev2 : ∀ j, j < i2 → env.stepOutcome (rest.getD j .deployment) = none := by
        intro j hj
        have hj1 := hprev (j + 1) (by omega)
        simpa using hj1
      have hrec := ih i2 (acc ++ [st]) writes refs e hi2 hfail2 hprev2
      refine ⟨?_, hrec.2.1, hrec.2.2⟩
      rw [hrec.1, List.take_succ_cons]
      simp

theorem runSteps_refetches_ge (env : WebEnv) :
    ∀ (l acc : List StepName) (writes : List Condition) (refs : Nat),
      refs ≤ (runSteps env writes acc refs l).refetches := by
  intro l
  induction l with
  | nil =>
    intro acc writes refs
    rcases hfu : env.finalUpd with _ | e
    · rcases hfr : env.finalRefetch with _ | e
      · simp [runSteps, hfu, hfr]
      · simp [runSteps, hfu, hfr]
    · simp [runSteps, hfu]
  | cons st rest ih =>
    intro acc writes refs
    rcases hs : env.stepOutcome st with _ | e
    · simp only [runSteps, hs]
      exact ih (acc ++ [st]) writes refs
    · simp only [runSteps, hs]
      rcases hfu : env.failUpd st with _ | e1 <;>
        rcases hfr : env.failRefetch st with _ | e2 <;> simp

theorem runSteps_statusWrites_form (env : WebEnv) :
    ∀ (l acc : List StepName) (writes : List Condition) (refs : Nat),
      ∃ c, (runSteps env writes acc refs l).statusWrites = writes ++ [c] := by
  intro l
  induction l with
  | nil =>
    intro acc writes refs
    refine ⟨availCond .ctrue "Finished reconciliation", ?_⟩
    rcases hfu : env.finalUpd with _ | e
    · rcases hfr : env.finalRefetch with _ | e
      · simp [runSteps, hfu, hfr]
      · simp [runSteps, hfu, hfr]
    · simp [runSteps, hfu]
  | cons st rest ih =>
    intro acc writes refs
    rcases hs : env.stepOutcome st with _ | e
    · simp only [runSteps, hs]
      exact ih (acc ++ [st]) writes refs
    · exact ⟨availCond .cfalse "Failed to create deployment", by simp [runSteps, hs]⟩

/-- Under a successful fetch and a successful initial-status phase, the
whole reconcile is the step loop with the appropriate prelude. -/
theorem webReconcile_eq_runSteps (env : WebEnv) (conds : List Condition)
    (hget : env.getWeb = .found conds)
    (hinit : conds = [] → env.initUpd = .ok ∧ env.initRefetch = .ok) :
    ∃ (W : List Condition) (R : Nat),
      webReconcile env = runSteps env W [] R stepOrder := by
  by_cases hc : conds = []
  · obtain ⟨h1, h2⟩ := hinit hc
    refine ⟨[availCond .cunknown "Starting reconciliation"], 1, ?_⟩
    have hemp : conds.isEmpty = true := by rw [hc]; rfl
    simp [webReconcile, hget, hemp, h1, h2]
  · refine ⟨[], 0, ?_⟩
    have hemp : conds.isEmpty = false := by
      rcases conds with _ | ⟨c, cs⟩
      · exact absurd rfl hc
      · rfl
    simp [webReconcile, hget, hemp]

theorem webReconcile_empty_conds (env : WebEnv)
    (hget : env.getWeb = .found ([] : List Condition))
    (h1 : env.initUpd = .ok) (h2 : env.initRefetch = .ok) :
    webReconcile env =
      runSteps env [availCond .cunknown "Starting reconciliation"] [] 1 stepOrder := by
  simp [webReconcile, hget, h1, h2]


/-- C4: every WebServer reconcile attempts the five ensure-steps in the
fixed order Workload (Deployment), StaticConfigBlob (config ConfigMap),
DataConfigBlob (data ConfigMap), NetworkEndpoint (Service), ExternalRoute
(Ingress): the executed steps always form a prefix of that order, all
five run when none fails, and at the first failing step the remaining
steps are not executed and the call returns that step's error. -/
theorem c4_five_steps_fixed_order (env : WebEnv) (conds : List Condition)
    (hget : env.getWeb = .found conds)
    (hinit : conds = [] → env.initUpd = .ok ∧ env.initRefetch = .ok) :
    ((webReconcile env).stepsRun <+: stepOrder) ∧
    ((∀ s, env.stepOutcome s = none) → (webReconcile env).stepsRun = stepOrder) ∧
    (∀ i e, i < stepOrder.length →
      env.stepOutcome (stepOrder.getD i .deployment) = some e →
      (∀ j, j < i → env.stepOutcome (stepOrder.getD j .deployment) = none) →
      (webReconcile env).stepsRun = stepOrder.take (i + 1) ∧
      (webReconcile env).res = .err e) := by
  obtain ⟨W, R, hw⟩ := webReconcile_eq_runSteps env conds hget hinit
  rw [hw]
  refine ⟨?_, ?_, ?_⟩
  · obtain ⟨t, ht, hp⟩ := runSteps_stepsRun_append env stepOrder [] W R
    rw [ht]
    simpa using hp
  · intro hall
    have h := runSteps_all_ok env stepOrder [] W R (fun s _ => hall s)
    simpa using h.1
  · intro i e hi hfail hprev
    have h := runSteps_first_fail env stepOrder i [] W R e hi hfail hprev
    exact ⟨by simpa using h.1, h.2.1⟩

theorem c4_five_steps_fixed_order_witness :
    (c4env.getWeb = .found [availCond .ctrue "prior"] ∧
      ([availCond .ctrue "prior"] = ([] : List Condition) →
        c4env.initUpd = .ok ∧ c4env.initRefetch = .ok)) ∧
    (((webReconcile c4env).stepsRun <+: stepOrder) ∧
     ((∀ s, c4env.stepOutcome s = none) → (webReconcile c4env).stepsRun = stepOrder) ∧
     (∀ i e, i < stepOrder.length →
        c4env.stepOutcome (stepOrder.getD i .deployment) = some e →
        (∀ j, j < i → c4env.stepOutcome (stepOrder.getD j .deployment) = none) →
        (webReconcile c4env).stepsRun = stepOrder.take (i + 1) ∧
        (webReconcile c4env).res = .err e)) :=
  ⟨⟨by decide, by decide⟩,
   c4_five_steps_fixed_order c4env [availCond .ctrue "prior"] (by decide) (by decide)⟩

/-- C7 (amended): whenever an ensure-step is the first to fail, the
reconcile attempts a status write upserting `Available=False` whose
message is the constant `"Failed to create deployment"` for every step
(the step-specific text goes only to the log), and the value returned to
the caller is the original step error even when that status write or its
re-fetch fails. -/
theorem c7_fail_status_constant_message (env : WebEnv) (conds : List Condition)
    (i : Nat) (e : Err)
    (hget : env.getWeb = .found conds)
    (hinit : conds = [] → env.initUpd = .ok ∧ env.initRefetch = .ok)
    (hi : i < stepOrder.length)
    (hfail : env.stepOutcome (stepOrder.getD i .deployment) = some e)
    (hprev : ∀ j, j < i → env.stepOutcome (stepOrder.getD j .deployment) = none) :
    (webReconcile env).res = .err e ∧
    (webReconcile env).statusWrites.getLast? =
      some (availCond .cfalse "Failed to create deployment") := by
  obtain ⟨W, R, hw⟩ := webReconcile_eq_runSteps env conds hget hinit
  rw [hw]
  have h := runSteps_first_fail env stepOrder i [] W R e hi hfail hprev
  refine ⟨h.2.1, ?_⟩
  rw [h.2.2]
  exact List.getLast?_concat _

theorem c7_fail_status_constant_message_witness :
    (c7envA.getWeb = .found [availCond .ctrue "prior"] ∧
      ([availCond .ctrue "prior"] = ([] : List Condition) →
        c7envA.initUpd = .ok ∧ c7envA.initRefetch = .ok) ∧
      3 < stepOrder.length ∧
      c7envA.stepOutcome (stepOrder.getD 3 .deployment) = some (.backend "boom") ∧
      (∀ j, j < 3 → c7envA.stepOutcome (stepOrder.getD j .deployment) = none)) ∧
    ((webReconcile c7envA).res = .err (.backend "boom") ∧
     (webReconcile c7envA).statusWrites.getLast? =
       some (availCond .cfalse "Failed to create deployment")) :=
  ⟨⟨by decide, by decide, by decide, by decide, by decide⟩,
   c7_fail_status_constant_message c7envA [availCond .ctrue "prior"] 3 (.backend "boom")
     (by decide) (by decide) (by decide) (by decide) (by decide)⟩

/-- C7 counterexample: runs failing at two different steps (the Service
step in `c7envA`, the Ingress step in `c7envB`) produce identical status
writes — the condition message is not step-specific. -/
theorem c7_counterexample :
    (webReconcile c7envA).statusWrites = (webReconcile c7envB).statusWrites ∧
    (webReconcile c7envA).stepsRun ≠ (webReconcile c7envB).stepsRun := by
  decide

/-- C8 (amended): for every fetched Site, when the condition list is
empty the call first writes and persists `Available=Unknown` with message
`"Starting reconciliation"` (the condition's reason field is the constant
`"Reconciling"`) and re-fetches the object; and for every reconcile —
whatever the starting condition list — in which all five steps and the
final status phase succeed, the last write is `Available=True` with
message `"Finished reconciliation"` and the call returns success. -/
theorem c8_initial_and_final_status (env : WebEnv) (conds : List Condition)
    (hget : env.getWeb = .found conds)
    (hinit : conds = [] → env.initUpd = .ok ∧ env.initRefetch = .ok) :
    (conds = [] →
      (webReconcile env).statusWrites.head? =
        some (availCond .cunknown "Starting reconciliation") ∧
      1 ≤ (webReconcile env).refetches) ∧
    ((∀ s, env.stepOutcome s = none) → env.finalUpd = .ok → env.finalRefetch = .ok →
      (webReconcile env).res = .ok ∧
      (webReconcile env).statusWrites.getLast? =
        some (availCond .ctrue "Finished reconciliation")) := by
  constructor
  · intro hc
    subst hc
    obtain ⟨h1, h2⟩ := hinit rfl
    rw [webReconcile_empty_conds env hget h1 h2]
    constructor
    · obtain ⟨c, hcw⟩ := runSteps_statusWrites_form env stepOrder []
        [availCond .cunknown "Starting reconciliation"] 1
      rw [hcw]
      rfl
    · exact runSteps_refetches_ge env stepOrder [] _ 1
  · intro hall hf1 hf2
    obtain ⟨W, R, hw⟩ := webReconcile_eq_runSteps env conds hget hinit
    rw [hw]
    have h := runSteps_all_ok env stepOrder [] W R (fun s _ => hall s)
    refine ⟨h.2.2 hf1 hf2, ?_⟩
    rw [h.2.1]
    exact List.getLast?_concat _

theorem c8_initial_and_final_status_witness :
    (c8env.getWeb = .found ([] : List Condition) ∧
      (([] : List Condition) = [] → c8env.initUpd = .ok ∧ c8env.initRefetch = .ok)) ∧
    ((([] : List Condition) = [] →
       (webReconcile c8env).statusWrites.head? =
         some (availCond .cunknown "Starting reconciliation") ∧
       1 ≤ (webReconcile c8env).refetches) ∧
     ((∀ s, c8env.stepOutcome s = none) → c8env.finalUpd = .ok →
       c8env.finalRefetch = .ok →
       (webReconcile c8env).res = .ok ∧
       (webReconcile c8env).statusWrites.getLast? =
         some (availCond .ctrue "Finished reconciliation"))) :=
  ⟨⟨by decide, by decide⟩,
   c8_initial_and_final_status c8env [] (by decide) (by decide)⟩

/-- C8 counterexample: in a fully successful run from an empty condition
list, every written condition has reason `"Reconciling"`; no condition
with reason `"Starting reconciliation"` or `"Finished reconciliation"` is
ever set — those strings appear in the message field. -/
theorem c8_counterexample :
    (webReconcile c8env).statusWrites.map (fun c => c.reason) =
      ["Reconciling", "Reconciling"] ∧
    (∀ c ∈ (webReconcile c8env).statusWrites, c.reason ≠ "Starting reconciliation") ∧
    (∀ c ∈ (webReconcile c8env).statusWrites, c.reason ≠ "Finished reconciliation") := by
  decide


/-- C9 (amended): when the referenced WebServer fetch fails — including
when the WebServer does not exist — the Page reconcile returns that error
before the page listing and the aggregate recompute, and before any
finalizer removal: the cache is untouched, no WebServer status is
written, and in particular a deletion-marked page never has its finalizer
removed by such a call.  (The finalizer-add step for a live page precedes
the WebServer fetch, so it may already have persisted the finalizer.) -/
theorem c9_web_fetch_error_blocks (env : PageEnv) (cache : CacheMap)
    (pg : PageObj) (e : Err)
    (hpage : env.getPage = .found pg)
    (hweb : env.getWeb = .err e)
    (hfin : pg.deleted = true ∨ pageFinalizer ∈ pg.finalizers ∨ env.updAddFin = .ok) :
    (pageReconcile env cache).res = .err e ∧
    (pageReconcile env cache).finRemoved = false ∧
    (pageReconcile env cache).listCalled = false ∧
    (pageReconcile env cache).cache = cache ∧
    (pageReconcile env cache).statusHash = none := by
  rcases hdel : pg.deleted with _ | _
  · by_cases hmem : pageFinalizer ∈ pg.finalizers
    · simp [pageReconcile, hpage, hweb, hdel, hmem]
    · rcases hupd : env.updAddFin with _ | e2
      · simp [pageReconcile, hpage, hweb, hdel, hmem, hupd]
      · exfalso
        rcases hfin with h | h | h
        · rw [hdel] at h
          cases h
        · exact hmem h
        · rw [hupd] at h
          cases h
  · simp [pageReconcile, hpage, hweb, hdel]

theorem c9_web_fetch_error_blocks_witness :
    (c9envDel.getPage = .found c9pgDel ∧
      c9envDel.getWeb = .err (.backend "webserver not found") ∧
      (c9pgDel.deleted = true ∨ pageFinalizer ∈ c9pgDel.finalizers ∨
        c9envDel.updAddFin = .ok)) ∧
    ((pageReconcile c9envDel c1cache).res = .err (.backend "webserver not found") ∧
     (pageReconcile c9envDel c1cache).finRemoved = false ∧
     (pageReconcile c9envDel c1cache).listCalled = false ∧
     (pageReconcile c9envDel c1cache).cache = c1cache ∧
     (pageReconcile c9envDel c1cache).statusHash = none) :=
  ⟨⟨by decide, by decide, by decide⟩,
   c9_web_fetch_error_blocks c9envDel c1cache c9pgDel (.backend "webserver not found")
     (by decide) (by decide) (by decide)⟩

/-- C9 counterexample: for a live page without the finalizer whose
WebServer fetch fails, the call persists the finalizer addition and then
returns the fetch error — so the error is not returned before every
finalizer manipulation. -/
theorem c9_counterexample :
    (pageReconcile c9env []).res = .err (.backend "webserver not found") ∧
    (pageReconcile c9env []).finAdded = true := by
  decide

/-- C1 (amended): for a deletion-marked Page whose page listing succeeds,
the aggregate recompute is performed before the finalizer removal, and
whenever the finalizer is removed the cached aggregate for the referenced
site agrees, as a map, with the freshly rebuilt aggregate, every key of
which comes from a live listed page — the deleted page's own entry is
excluded.  (When the listing fails, the error is only logged and the
finalizer is removed anyway; see the counterexample.) -/
theorem c1_finalizer_removed_after_exclusion (env : PageEnv) (cache : CacheMap)
    (pg : PageObj) (items : List PageObj)
    (hpage : env.getPage = .found pg)
    (hdel : pg.deleted = true)
    (hlist : env.listPages = .ok items)
    (hwf : CacheWF cache) :
    (pageReconcile env cache).finRemoved = true →
    ∃ m, cacheGet (pageReconcile env cache).cache (pg.pns, pg.sWebServer) = some m ∧
      (∀ k, mapLookup k m = mapLookup k (buildData items)) ∧
      (∀ k, k ∈ mapKeys m → ∃ q, q ∈ items ∧ q.deleted = false ∧ q.sName = k) := by
  intro hrem
  rcases hweb : env.getWeb with _ | e
  case err =>
    have hf : (pageReconcile env cache).finRemoved = false := by
      simp [pageReconcile, hpage, hdel, hweb]
    rw [hf] at hrem
    cases hrem
  case ok =>
  by_cases hmem : pageFinalizer ∈ pg.finalizers
  case neg =>
    have hf : (pageReconcile env cache).finRemoved = false := by
      rcases hch : DataDiffer (cacheGet cache (pg.pns, pg.sWebServer))
          (some (buildData items)) with _ | _
      · simp [pageReconcile, prepareData, hpage, hdel, hweb, hlist, hch, hmem]
      · rcases hst : env.updWebStatus with _ | e2
        · simp [pageReconcile, prepareData, hpage, hdel, hweb, hlist, hch, hmem, hst]
        · simp [pageReconcile, prepareData, hpage, hdel, hweb, hlist, hch, hmem, hst]
    rw [hf] at hrem
    cases hrem
  case pos =>
  rcases hrm : env.updRemoveFin with _ | e3
  case err =>
    have hf : (pageReconcile env cache).finRemoved = false := by
      rcases hch : DataDiffer (cacheGet cache (pg.pns, pg.sWebServer))
          (some (buildData items)) with _ | _
      · simp [pageReconcile, prepareData, hpage, hdel, hweb, hlist, hch, hmem, hrm]
      · rcases hst : env.updWebStatus with _ | e2
        · simp [pageReconcile, prepareData, hpage, hdel, hweb, hlist, hch, hmem, hst, hrm]
        · simp [pageReconcile, prepareData, hpage, hdel, hweb, hlist, hch, hmem, hst, hrm]
    rw [hf] at hrem
    cases hrem
  case ok =>
  rcases hch : DataDiffer (cacheGet cache (pg.pns, pg.sWebServer))
      (some (buildData items)) with _ | _
  case false =>
    have hcc : (pageReconcile env cache).cache = cache := by
      simp [pageReconcile, prepareData, hpage, hdel, hweb, hlist, hch, hmem, hrm]
    rcases hold : cacheGet cache (pg.pns, pg.sWebServer) with _ | om
    · rw [hold] at hch
      simp [DataDiffer] at hch
    · rw [hold] at hch
      have hpt := (DataDiffer_false_iff (cacheGet_wf hwf hold)
        (buildData_nodup items)).mp hch
      refine ⟨om, ?_, hpt, ?_⟩
      · rw [hcc]
        exact hold
      · intro k hk
        obtain ⟨v, hv⟩ := mem_mapKeys_iff_lookup.mp hk
        have hbn : mapLookup k (buildData items) = some v := by
          rw [← hpt k]
          exact hv
        exact buildData_keys (mem_mapKeys_of_lookup hbn)
  case true =>
    rcases hst : env.updWebStatus with _ | e2
    case ok =>
      have hcc : (pageReconcile env cache).cache =
          cacheSet cache (pg.pns, pg.sWebServer) (buildData items) := by
        simp [pageReconcile, prepareData, hpage, hdel, hweb, hlist, hch, hmem, hst, hrm]
      refine ⟨buildData items, ?_, fun k => rfl, fun k hk => buildData_keys hk⟩
      rw [hcc]
      exact cacheGet_cacheSet_self cache (pg.pns, pg.sWebServer) (buildData items)
    case err =>
      have hf : (pageReconcile env cache).finRemoved = false := by
        simp [pageReconcile, prepareData, hpage, hdel, hweb, hlist, hch, hmem, hst]
      rw [hf] at hrem
      cases hrem

theorem c1_finalizer_removed_after_exclusion_witness :
    (c1wenv.getPage = .found c1pg ∧ c1pg.deleted = true ∧
      c1wenv.listPages = .ok [c1pg] ∧ CacheWF c1wcache ∧
      (pageReconcile c1wenv c1wcache).finRemoved = true) ∧
    (∃ m, cacheGet (pageReconcile c1wenv c1wcache).cache (c1pg.pns, c1pg.sWebServer) =
        some m ∧
      (∀ k, mapLookup k m = mapLookup k (buildData [c1pg])) ∧
      (∀ k, k ∈ mapKeys m → ∃ q, q ∈ [c1pg] ∧ q.deleted = false ∧ q.sName = k)) :=
  ⟨⟨by decide, by decide, by decide, by decide, by decide⟩,
   c1_finalizer_removed_after_exclusion c1wenv c1wcache c1pg [c1pg]
     (by decide) (by decide) (by decide) (by decide) (by decide)⟩

/-- C1 counterexample: the page listing fails, the failure is only
logged, and the finalizer is removed while the cached aggregate still
contains the deleted page's entry (`"idx"` is still mapped for the
site). -/
theorem c1_counterexample :
    (pageReconcile c1env c1cache).finRemoved = true ∧
    (pageReconcile c1env c1cache).res = .ok ∧
    mapLookup "idx" ((cacheGet (pageReconcile c1env c1cache).cache ("ns", "s1")).getD [])
      = some [104] := by
  decide


/-! ### Digest determinism (the provable half of the spec's digest claims)

The remaining digest property asserted by the spec — that changing any
single byte of any value changes the base64-encoded SHA-1 digest — is
equivalent to the absence of SHA-1 collisions between equal-length
streams and is neither proved nor refuted here. -/

theorem insertSorted_eq (x : String) (l : List String) :
    insertSorted x l = List.orderedInsert (fun a b => a ≤ b) x l := by
  induction l with
  | nil => rfl
  | cons y ys ih => simp [insertSorted, List.orderedInsert, ih]

theorem sortStrings_eq_insertionSort (l : List String) :
    sortStrings l = List.insertionSort (fun a b => a ≤ b) l := by
  induction l with
  | nil => rfl
  | cons x xs ih =>
    show insertSorted x (sortStrings xs) = _
    rw [insertSorted_eq, ih]
    rfl

theorem sortStrings_sorted (l : List String) :
    List.Sorted (fun a b => a ≤ b) (sortStrings l) := by
  rw [sortStrings_eq_insertionSort]
  exact List.sorted_insertionSort _ l

theorem sortStrings_perm (l : List String) : List.Perm (sortStrings l) l := by
  rw [sortStrings_eq_insertionSort]
  exact List.perm_insertionSort _ l

theorem sortStrings_eq_of_perm {l₁ l₂ : List String} (h : List.Perm l₁ l₂) :
    sortStrings l₁ = sortStrings l₂ :=
  List.eq_of_perm_of_sorted
    ((sortStrings_perm l₁).trans (h.trans (sortStrings_perm l₂).symm))
    (sortStrings_sorted l₁) (sortStrings_sorted l₂)

theorem hashStream_congr {m₁ m₂ : GoMap} (h1 : KeysNodup m₁) (h2 : KeysNodup m₂)
    (hpt : ∀ k, mapLookup k m₁ = mapLookup k m₂) :
    hashStream m₁ = hashStream m₂ := by
  have hperm : List.Perm (mapKeys m₁) (mapKeys m₂) := by
    rw [List.perm_ext_iff_of_nodup h1 h2]
    intro x
    rw [mem_mapKeys_iff_lookup, mem_mapKeys_iff_lookup, hpt x]
  have hsort : sortStrings (mapKeys m₁) = sortStrings (mapKeys m₂) :=
    sortStrings_eq_of_perm hperm
  unfold hashStream
  rw [hsort]
  suffices h : ∀ (ks : List String) (acc : Bytes),
      ks.foldl (fun acc k => acc ++ strBytes k ++ (mapLookup k m₁).getD []) acc =
      ks.foldl (fun acc k => acc ++ strBytes k ++ (mapLookup k m₂).getD []) acc from
    h _ []
  intro ks
  induction ks with
  | nil => intro acc; rfl
  | cons k ks ih =>
    intro acc
    simp only [List.foldl_cons]
    rw [hpt k]
    exact ih _

/-- Two aggregates that are equal as key/value maps produce the same
digest, regardless of the order in which their entries were inserted. -/
theorem makeHash_insertion_order_free {m₁ m₂ : GoMap}
    (h1 : KeysNodup m₁) (h2 : KeysNodup m₂)
    (hpt : ∀ k, mapLookup k m₁ = mapLookup k m₂) :
    makeHash m₁ = makeHash m₂ := by
  unfold makeHash
  rw [hashStream_congr h1 h2 hpt]

end Webid




